import Mathlib

/-!
Verification of the adaptive concurrent filesystem analysis engine of
movemypc (src/main/system-analysis).

The TypeScript source is shallowly embedded:
* JS strings are modelled as lists of characters (`Str`); `toLowerCase`
  is `List.map Char.toLower` and `startsWith` is `List.isPrefixOf`.
* JS numbers are modelled as exact rationals (`ℚ`) where the source uses
  fractional arithmetic (device specs, performance score) and as
  `Nat`/`Int` where the source only ever holds integers.
* Asynchronous code is given its deterministic sequential semantics:
  a settled promise is an `Except` value (`.ok` = fulfilled,
  `.error` = rejected); `Promise.allSettled` over a list of operations
  is the list of the operations' `Except` results in input order, which
  is the order the source's `forEach`/`push` aggregation respects.
* A nullable value (`FileItem | null`) is an `Option`; the source's
  truthiness test `result.value` on such a value is `Option.isSome`
  (every `FileItem` object and every array, even empty, is truthy).
* Filesystem syscalls together with their resilience wrappers
  (`isDirectoryAccessible`, `safeReaddir`, `safeStat` — which never
  throw and return `false` / `[]` / `null` on failure) are an abstract
  environment `FS` of total functions; logging calls are elided as they
  do not affect any value or state the claims mention.
-/

/-! # Definitions -/

/-- JS strings as character lists. -/
abbrev Str := List Char

/-- `s.toLowerCase()`. -/
def toLowerStr (s : Str) : Str := s.map Char.toLower

/-- `s.startsWith(p)`: `p` is a prefix of `s`. -/
def jsStartsWith (s p : Str) : Bool := List.isPrefixOf p s

/-- `path.join(a, b)` (separator details are immaterial to the claims). -/
def joinPath (a b : Str) : Str := a ++ [ '/' ] ++ b

/-- `path.extname(filename)` restricted to the final path component: the
suffix starting at the last dot, or empty when there is no dot or the
only dot is the leading character (dotfiles have no extension).  The
source only ever applies it to plain entry names. -/
def extnameStr (filename : Str) : Str :=
  let base := ((filename.reverse).takeWhile (fun c => c ≠ '/')).reverse
  match (base.reverse).findIdx? (fun c => c = '.') with
  | none => []
  | some i =>
    let pos := base.length - 1 - i
    if pos = 0 then [] else base.drop pos

/-- `getFileExtension(filename)` from `utils/file-utils.ts`:
`extname(filename).toLowerCase()` with a leading dot stripped. -/
def getFileExtension (filename : Str) : Str :=
  let ext := toLowerStr (extnameStr filename)
  if jsStartsWith ext [ '.' ] then ext.drop 1 else ext

/-- `isExecutableFile(filename)`: extension is `exe` or `msi`. -/
def isExecutableFile (filename : Str) : Bool :=
  let ext := getFileExtension filename
  ext = "exe".toList ∨ ext = "msi".toList

/-- `generateFileId(path)` combines a run-scoped counter with a base64
digest of the path; the counter value is immaterial to every claim
below (no claim mentions id contents), so ids are modelled by the path
alone. -/
def generateFileId (path : Str) : Str := path

/-! ## Chunking (the `for (let i = 0; i < items.length; i += n)` slicing
loops of `processors/concurrent.ts`) -/

/-- Structural worker for `chunkList`: `fuel` bounds the number of
slices; `fuel = l.length` always suffices for a positive `n`. -/
def chunkListAux (n : Nat) : Nat → List α → List (List α)
  | 0, _ => []
  | _ + 1, [] => []
  | fuel + 1, x :: xs => (x :: xs).take n :: chunkListAux n fuel ((x :: xs).drop n)

/-- The successive slices `items.slice(i, i + n)` for `i = 0, n, 2n, …`.
The source loop never terminates when `n = 0`; the calculated limits
guarantee `n ≥ 1` (batch size ≥ 50, concurrency ≥ 1), so the `n = 0`
case is unreachable and mapped to `[]`. -/
def chunkList (n : Nat) (l : List α) : List (List α) :=
  if n = 0 then [] else chunkListAux n l.length l

/-! ## Data model (`types/analysis-types.ts`) -/

/-- `AnalysisLimits` — every field only ever holds a nonnegative integer
(each value produced by the limits calculator is protected by a
`Math.max` with a positive constant), so the fields are `Nat`. -/
structure AnalysisLimits where
  maxDepth : Nat
  batchSize : Nat
  progressUpdateInterval : Nat
  largeSizeThreshold : Nat
  warningDirectorySize : Nat
  slowDirectoryThreshold : Nat
  concurrencyLevel : Nat
deriving DecidableEq, Repr

/-- `FileItem`: a node of the scanned inventory tree.  `type` is split
into the two constructors; `size`/`extension` exist only on files and
`children` only on folders, exactly as the source builds them. -/
inductive FileItem where
  | file (id name path : Str) (size : Nat) (parent : Option Str)
      (modifiedDate : Int) (extension : Str)
  | folder (id name path : Str) (parent : Option Str)
      (modifiedDate : Int) (children : List FileItem)
deriving Repr

/-- The `path` field of a `FileItem`. -/
def itemPath : FileItem → Str
  | .file _ _ p _ _ _ _ => p
  | .folder _ _ p _ _ _ => p

/-- Nesting depth below a `FileItem`: `0` for a file or an empty folder,
one more than the deepest child otherwise. -/
def depthBelow : FileItem → Nat
  | .file _ _ _ _ _ _ _ => 0
  | .folder _ _ _ _ _ children =>
    children.attach.foldr (fun c acc => max (depthBelow c.1 + 1) acc) 0
decreasing_by
  simp only [FileItem.folder.sizeOf_spec]
  have := List.sizeOf_lt_of_mem c.2
  omega

/-- `SystemAnalysisResult`. -/
structure SystemAnalysisResult where
  files : List FileItem
  apps : List FileItem
  configurations : List FileItem

/-! ## Batch / concurrent processors (`processors/concurrent.ts`,
`utils/concurrency.ts`)

A processor call is a settled promise: `Except E (Option R)`, where
`.error` is a rejected promise and `.ok none` a promise fulfilled with
`null` (falsy).  `Promise.allSettled` preserves input order, and the
aggregation loops push results in that order, so the deterministic
semantics of one batch is `settleFilter`. -/

/-- `Promise.allSettled(batch.map(processor))` followed by
`.filter(r => r.status === 'fulfilled' && r.value).map(r => r.value)`. -/
def settleFilter (proc : α → Except ε (Option ρ)) (batch : List α) : List ρ :=
  batch.filterMap fun t =>
    match proc t with
    | .ok (some r) => some r
    | .ok none => none
    | .error _ => none

/-- `processBatch(items, processor, analysisLimits)`: slice `items` into
batches of `batchSize`; with `concurrencyLevel == 1` run the batches
sequentially, otherwise run groups of `concurrencyLevel` batches
(each group's per-batch result lists are pushed in group order, which
`Promise.allSettled` preserves); either way each batch contributes its
fulfilled truthy results in input order.  The group promises built in
`processConcurrentBatches` cannot reject (their bodies only await
`Promise.allSettled` and filter), so every group's results are kept. -/
def processBatch (items : List α) (proc : α → Except ε (Option ρ))
    (limits : AnalysisLimits) : List ρ :=
  let batches := chunkList limits.batchSize items
  if limits.concurrencyLevel = 1 then
    (batches.map (settleFilter proc)).flatten
  else
    let batchGroups := chunkList limits.concurrencyLevel batches
    (batchGroups.map fun g => (g.map (settleFilter proc)).flatten).flatten

/-- `processConcurrentOperations(items, processor, concurrency)` of the
pool-based `processors/concurrent.ts` (delegating to
`processConcurrentWithPool` in `utils/concurrency.ts`): it throws when
`concurrency < 1`, and otherwise resolves with the settled result of
every item, in input order ("Results correspond to input order
regardless of completion time"). -/
def processConcurrentOperations (items : List α) (proc : α → Except ε ρ)
    (concurrency : Nat) : Except String (List (Except ε ρ)) :=
  if concurrency < 1 then .error "Concurrency must be at least 1"
  else .ok (items.map proc)

/-! ## Exclusion manager (`managers/exclusion-manager.ts`) -/

/-- The closure state created by `createExclusionManager`: a JS `Set`
of lowercased paths, i.e. an insertion-ordered duplicate-free list. -/
structure ExclusionManager where
  excludedPaths : List Str
deriving DecidableEq, Repr

def emptyExclusionManager : ExclusionManager := ⟨[]⟩

/-- `addExclusion(path)`: `excludedPaths.add(path.toLowerCase())`
(a JS `Set` ignores an element already present). -/
def addExclusion (m : ExclusionManager) (path : Str) : ExclusionManager :=
  if toLowerStr path ∈ m.excludedPaths then m
  else ⟨m.excludedPaths ++ [toLowerStr path]⟩

/-- `removeExclusion(path)`: `excludedPaths.delete(path.toLowerCase())`. -/
def removeExclusion (m : ExclusionManager) (path : Str) : ExclusionManager :=
  ⟨m.excludedPaths.filter fun e => e ≠ toLowerStr path⟩

/-- `isExcluded(path)`: some stored entry is a prefix of the lowercased
path, or the lowercased path is a prefix of some stored entry. -/
def isExcluded (m : ExclusionManager) (path : Str) : Bool :=
  m.excludedPaths.any fun excluded =>
    jsStartsWith (toLowerStr path) excluded ||
      jsStartsWith excluded (toLowerStr path)

/-- One mutation of an exclusion manager. -/
inductive ExclOp where
  | add (path : Str)
  | remove (path : Str)
deriving DecidableEq, Repr

def applyExclOp (m : ExclusionManager) : ExclOp → ExclusionManager
  | .add p => addExclusion m p
  | .remove p => removeExclusion m p

/-- A sequence of `addExclusion`/`removeExclusion` calls. -/
def applyExclOps (m : ExclusionManager) (ops : List ExclOp) : ExclusionManager :=
  ops.foldl applyExclOp m

/-- The module-level `let exclusionManager: ExclusionManager;` variable:
`none` until `initializeExclusionManager()` assigns it. -/
abbrev ExclusionModuleState := Option ExclusionManager

/-- `initializeExclusionManager()`. -/
def initExclusionManager (_st : ExclusionModuleState) : ExclusionModuleState :=
  some emptyExclusionManager

/-- `addDirectoryExclusion(path)`: guarded by `if (exclusionManager)`. -/
def addDirectoryExclusion (st : ExclusionModuleState) (p : Str) :
    ExclusionModuleState :=
  match st with
  | none => none
  | some m => some (addExclusion m p)

/-- `removeDirectoryExclusion(path)`: guarded by `if (exclusionManager)`. -/
def removeDirectoryExclusion (st : ExclusionModuleState) (p : Str) :
    ExclusionModuleState :=
  match st with
  | none => none
  | some m => some (removeExclusion m p)

/-- `getExcludedDirectories()`: `[]` when the manager is undefined. -/
def getExcludedDirectories (st : ExclusionModuleState) : List Str :=
  match st with
  | none => []
  | some m => m.excludedPaths

/-- `isPathExcluded(path)`: `false` when the manager is undefined. -/
def isPathExcluded (st : ExclusionModuleState) (p : Str) : Bool :=
  match st with
  | none => false
  | some m => isExcluded m p

/-- One call of the uninitialized module-level mutation API. -/
inductive ModuleOp where
  | addDir (p : Str)
  | removeDir (p : Str)
deriving DecidableEq, Repr

def applyModuleOp (st : ExclusionModuleState) : ModuleOp → ExclusionModuleState
  | .addDir p => addDirectoryExclusion st p
  | .removeDir p => removeDirectoryExclusion st p

def applyModuleOps (st : ExclusionModuleState) (ops : List ModuleOp) :
    ExclusionModuleState :=
  ops.foldl applyModuleOp st

/-! ## Device specs and limits calculator (`utils.ts`) -/

inductive DiskSpeedTier where
  | slow
  | medium
  | fast
deriving DecidableEq, Repr

/-- Linear order of disk tiers used to state monotonicity. -/
def tierRank : DiskSpeedTier → Nat
  | .slow => 0
  | .medium => 1
  | .fast => 2

/-- `DeviceSpecs`; memory sizes are fractional GB values. -/
structure DeviceSpecs where
  totalMemoryGB : ℚ
  availableMemoryGB : ℚ
  cpuCores : Nat
  diskSpeedTier : DiskSpeedTier
deriving DecidableEq, Repr

/-- `Math.max(1, Math.floor(specs.cpuCores / 2))`. -/
def cpuConcurrency (s : DeviceSpecs) : Int :=
  max 1 ((s.cpuCores : Int) / 2)

/-- `Math.max(1, Math.floor(specs.availableMemoryGB / 2))`. -/
def memoryConcurrency (s : DeviceSpecs) : Int :=
  max 1 ⌊s.availableMemoryGB / 2⌋

/-- Disk-based concurrency: 4 fast, 2 medium, 1 slow. -/
def diskConcurrency (s : DeviceSpecs) : Int :=
  match s.diskSpeedTier with
  | .fast => 4
  | .medium => 2
  | .slow => 1

/-- `Math.min(cpuConcurrency, memoryConcurrency, diskConcurrency)`. -/
def baseConcurrency (s : DeviceSpecs) : Int :=
  min (cpuConcurrency s) (min (memoryConcurrency s) (diskConcurrency s))

/-- The device-tier cap applied to the base concurrency. -/
def tierAdjusted (s : DeviceSpecs) : Int :=
  if 8 ≤ s.cpuCores ∧ (8 : ℚ) ≤ s.availableMemoryGB ∧
      s.diskSpeedTier = .fast then
    min (baseConcurrency s) 6
  else if 4 ≤ s.cpuCores ∧ (4 : ℚ) ≤ s.availableMemoryGB then
    min (baseConcurrency s) 3
  else 1

/-- `calculateOptimalConcurrency(specs)`. -/
def calculateOptimalConcurrency (s : DeviceSpecs) : Int :=
  max 1 (tierAdjusted s)

/-- Disk multiplier of the performance score: 2 fast, 1.5 medium,
1 slow. -/
def diskMultiplier (t : DiskSpeedTier) : ℚ :=
  match t with
  | .fast => 2
  | .medium => 3 / 2
  | .slow => 1

/-- `performanceScore = min(cpuCores/4, 3) * min(availableMemoryGB/4, 2)
* diskMultiplier`.  When the score is `0`, the source's
`Math.floor(100 / performanceScore)` is `Infinity`; in the rational
embedding `100 / 0 = 0`, and the claimed formula (which is the same
expression) is read with the same convention. -/
def performanceScore (s : DeviceSpecs) : ℚ :=
  min ((s.cpuCores : ℚ) / 4) 3 * min (s.availableMemoryGB / 4) 2 *
    diskMultiplier s.diskSpeedTier

/-- `calculateOptimalLimits(specs)`.  Every component is an integer
protected below by a positive constant, so the `Int.toNat` coercions
are lossless. -/
def calculateOptimalLimits (s : DeviceSpecs) : AnalysisLimits :=
  let score := performanceScore s
  { maxDepth := 8
    batchSize := (min (max 50 ⌊200 * score⌋) 1000).toNat
    progressUpdateInterval := (max 25 ⌊(100 : ℚ) / score⌋).toNat
    largeSizeThreshold := 5 * 1024 * 1024 * 1024
    warningDirectorySize := (max 50000 ⌊100000 * score⌋).toNat
    slowDirectoryThreshold := (max 20000 ⌊50000 * score⌋).toNat
    concurrencyLevel := (calculateOptimalConcurrency s).toNat }

/-- `clamp(x, lo, hi)` as used in the specification text. -/
def clampInt (x lo hi : Int) : Int := min (max x lo) hi

/-! ## Filesystem environment

The scanners reach the filesystem only through `isDirectoryAccessible`,
`safeReaddir` and `safeStat` (`service/file.service.ts`), which swallow
every error: accessibility is a boolean, a failed read lists `[]`, a
failed stat is `null`.  `shouldExcludePath` matches the static
`EXCLUDE_PATTERNS` regexes against the full path; the regex list is
configuration data, so the match is an abstract predicate of the
environment.  `getApplicationDirectories()` is the configured platform
directory list. -/

/-- The relevant part of an `fs.Stats` object. -/
structure Stats where
  isDirectory : Bool
  isFile : Bool
  size : Nat
  mtime : Int
deriving DecidableEq, Repr

structure FS where
  accessible : Str → Bool
  readdir : Str → List Str
  stat : Str → Option Stats
  staticExcluded : Str → Bool
  appDirs : List Str

/-! ## Directory scanner (`analyzers/directory-scanner.ts`) -/

/-- `scanDirectory(dirPath, analysisLimits, parentId, depth)`.
Progress updates and the large-directory warning are emissions on the
progress channel that do not alter the returned items and are elided.
The `try/catch` around the recursive call and around the whole body are
dead in this semantics: every operation below is total. -/
def scanDirectory (fs : FS) (excl : ExclusionModuleState) (dirPath : Str)
    (limits : AnalysisLimits) (parentId : Option Str) (depth : Nat) :
    List FileItem :=
  if _h : limits.maxDepth < depth ∨ fs.staticExcluded dirPath = true then []
  else if !(fs.accessible dirPath) then []
  else
    let entries := fs.readdir dirPath
    if entries.isEmpty then []
    else if isPathExcluded excl dirPath then []
    else
      processBatch entries
        (fun entry =>
          let fullPath := joinPath dirPath entry
          if fs.staticExcluded fullPath then (Except.ok none : Except String _)
          else
            match fs.stat fullPath with
            | none => Except.ok none
            | some stats =>
              let id := generateFileId fullPath
              if stats.isDirectory then
                Except.ok (some (FileItem.folder id entry fullPath parentId
                  stats.mtime
                  (scanDirectory fs excl fullPath limits (some id) (depth + 1))))
              else if stats.isFile then
                Except.ok (some (FileItem.file id entry fullPath stats.size
                  parentId stats.mtime (getFileExtension entry)))
              else Except.ok none)
        limits
termination_by limits.maxDepth + 1 - depth
decreasing_by
  push_neg at _h
  omega

/-- The `processEntry` closure of `scanDirectory`, as a named function
(the source's local `fullPath`/`id` bindings are inlined; they are
pure, so the value is unchanged). -/
def scanEntryProc (fs : FS) (excl : ExclusionModuleState) (dirPath : Str)
    (limits : AnalysisLimits) (parentId : Option Str) (depth : Nat)
    (entry : Str) : Except String (Option FileItem) :=
  if fs.staticExcluded (joinPath dirPath entry) then .ok none
  else
    match fs.stat (joinPath dirPath entry) with
    | none => .ok none
    | some stats =>
      if stats.isDirectory then
        .ok (some (FileItem.folder (generateFileId (joinPath dirPath entry))
          entry (joinPath dirPath entry) parentId stats.mtime
          (scanDirectory fs excl (joinPath dirPath entry) limits
            (some (generateFileId (joinPath dirPath entry))) (depth + 1))))
      else if stats.isFile then
        .ok (some (FileItem.file (generateFileId (joinPath dirPath entry))
          entry (joinPath dirPath entry) stats.size parentId stats.mtime
          (getFileExtension entry)))
      else .ok none

/-! ## Applications scanner (`analyzers/applications-scanner.ts` /
`service/error.service.ts` lines 185-432) -/

/-- `processAppEntry(entry, appDir)`.  The folder item the source builds
has no `children`/`parent`/`size` fields, modelled as `[]`/`none`.
The `catch` around `safeReaddir` is dead (`safeReaddir` never throws;
it resolves `[]` on failure). -/
def processAppEntry (fs : FS) (entry : Str) (appDir : Str) : Option FileItem :=
  let fullPath := joinPath appDir entry
  match fs.stat fullPath with
  | none => none
  | some stats =>
    if stats.isDirectory then
      let appFiles := fs.readdir fullPath
      if appFiles.any isExecutableFile then
        some (.folder (generateFileId fullPath) entry fullPath none
          stats.mtime [])
      else none
    else if isExecutableFile entry then
      some (.file (generateFileId fullPath) entry fullPath stats.size none
        stats.mtime (getFileExtension entry))
    else none

/-- `processAppDir(appDir, index, total, analysisLimits)`; the
`index`/`total` arguments only feed progress emission and are elided.
`processBatch` already drops `null` results, so the source's subsequent
`.filter((app) => app !== null)` is the identity and is folded in. -/
def processAppDir (fs : FS) (appDir : Str) (limits : AnalysisLimits) :
    List FileItem :=
  if !(fs.accessible appDir) then []
  else
    let entries := fs.readdir appDir
    if entries.isEmpty then []
    else
      let limitedEntries := entries.take 100
      processBatch limitedEntries
        (fun e => (Except.ok (processAppEntry fs e appDir) : Except String _))
        limits

/-- The aggregation loop body: `if (result.status === 'fulfilled' &&
Array.isArray(result.value)) { apps.push(...result.value); }` — the
`Array.isArray` test always holds for a fulfilled array-valued
processor; a rejected result is only logged. -/
def pushFulfilled (acc : List β) (r : Except String (List β)) : List β :=
  match r with
  | .ok v => acc ++ v
  | .error _ => acc

/-- `analyzeApplications(analysisLimits)`: run `processAppDir` over
`getApplicationDirectories()` through `processConcurrentOperations`,
then push every fulfilled array result in order.  `processAppDir` is
total, but the aggregation is kept faithful to the settled-result
interface. -/
def analyzeApplications (fs : FS) (limits : AnalysisLimits) :
    Except String (List FileItem) :=
  match processConcurrentOperations fs.appDirs
      (fun d => (Except.ok (processAppDir fs d limits) : Except String _))
      limits.concurrencyLevel with
  | .error e => .error e
  | .ok results => .ok (results.foldl pushFulfilled [])

/-! ## Circuit breaker (`service/error.service.ts` lines 1-184) -/

/-- `CLOSED` / `OPEN` / `HALF_OPEN` (`opened` because `open` is a Lean
keyword). -/
inductive CircuitState where
  | closed
  | opened
  | halfOpen
deriving DecidableEq, Repr

structure CircuitBreakerOptions where
  failureThreshold : Nat
  resetTimeout : Int
  monitoringPeriod : Int
deriving DecidableEq, Repr

/-- The mutable fields of a `CircuitBreaker` instance. -/
structure CircuitBreakerState where
  state : CircuitState
  failures : Nat
  lastFailureTime : Int
  successes : Nat
deriving DecidableEq, Repr

/-- Field initializers of the `CircuitBreaker` class. -/
def initialCircuitBreaker : CircuitBreakerState :=
  { state := .closed, failures := 0, lastFailureTime := 0, successes := 0 }

/-- Outcome of one `execute` call. -/
inductive ExecResult (ε ρ : Type) where
  | breakerOpen
  | success (r : ρ)
  | failure (e : ε)
deriving DecidableEq

/-- `onSuccess()`. -/
def cbOnSuccess (cb : CircuitBreakerState) : CircuitBreakerState :=
  let cb' := { cb with failures := 0, successes := cb.successes + 1 }
  if cb'.state = .halfOpen then { cb' with state := .closed } else cb'

/-- `onFailure()`; `now` is the sampled `Date.now()`. -/
def cbOnFailure (cb : CircuitBreakerState) (opts : CircuitBreakerOptions)
    (now : Int) : CircuitBreakerState :=
  let cb' := { cb with failures := cb.failures + 1, lastFailureTime := now }
  if opts.failureThreshold ≤ cb'.failures then { cb' with state := .opened }
  else cb'

/-- `execute(fn)`: `op` is the settled outcome the wrapped operation
would produce if dispatched; in the fail-fast branch the result does
not depend on `op`, which is the formal reading of "the operation is
not invoked". -/
def cbExecute (opts : CircuitBreakerOptions) (cb : CircuitBreakerState)
    (now : Int) (op : Except ε ρ) :
    CircuitBreakerState × ExecResult ε ρ :=
  let gate : Option CircuitBreakerState :=
    if cb.state = .opened then
      if opts.resetTimeout < now - cb.lastFailureTime then
        some { cb with state := .halfOpen }
      else none
    else some cb
  match gate with
  | none => (cb, .breakerOpen)
  | some cb1 =>
    match op with
    | .ok r => (cbOnSuccess cb1, .success r)
    | .error e => (cbOnFailure cb1 opts now, .failure e)

/-- Fold a sequence of failing executions (time, error) through the
breaker, keeping the state. -/
def cbRunFailures (opts : CircuitBreakerOptions) (cb : CircuitBreakerState) :
    List (Int × String) → CircuitBreakerState
  | [] => cb
  | (t, e) :: rest =>
    cbRunFailures opts
      (cbExecute opts cb t (Except.error e : Except String Unit)).1 rest

/-! ## Orchestrator (`core/orchestrator.ts`) -/

/-- The orchestrator instance fields together with the run-scoped
module counters it resets (`progress-manager`'s update counter,
`file-utils`' file counter) and the exclusion-manager module state. -/
structure OrchestratorState where
  analysisLimits : Option AnalysisLimits
  isInitialized : Bool
  progressUpdateCounter : Nat
  fileCounter : Nat
  exclusionState : ExclusionModuleState
deriving DecidableEq, Repr

/-- `initialize()` given the probed `DeviceSpecs`: an early return when
already initialized; otherwise a fresh exclusion manager, freshly
computed limits, and zeroed counters. -/
def initOrchestrator (st : OrchestratorState) (probedSpecs : DeviceSpecs) :
    OrchestratorState :=
  if st.isInitialized then st
  else
    { analysisLimits := some (calculateOptimalLimits probedSpecs)
      isInitialized := true
      progressUpdateCounter := 0
      fileCounter := 0
      exclusionState := some emptyExclusionManager }

/-- `performCompleteAnalysis()`; the three parameters are the settled
outcomes of the `Promise.allSettled` over the phase scans.  After the
guard, nothing in the `try` block can throw (the extraction, logging
and timing are total), so the `catch` is dead and the call resolves. -/
def performCompleteAnalysis (st : OrchestratorState)
    (filesResult appsResult configurationsResult :
      Except String (List FileItem)) :
    Except String (OrchestratorState × SystemAnalysisResult) :=
  if st.isInitialized = false ∨ st.analysisLimits = none then
    .error "Analysis orchestrator not initialized"
  else
    let st1 := { st with progressUpdateCounter := 0, fileCounter := 0 }
    .ok (st1,
      { files := match filesResult with | .ok v => v | .error _ => []
        apps := match appsResult with | .ok v => v | .error _ => []
        configurations :=
          match configurationsResult with | .ok v => v | .error _ => [] })

/-! ## A concrete example environment -/

/-- A tiny filesystem: a root `/r` holding one text file, and an
application directory `/apps` holding an executable file, an
application folder whose child is an executable, and a plain file. -/
def exFS : FS where
  accessible := fun _ => true
  readdir := fun p =>
    if p = "/r".toList then ["a.txt".toList]
    else if p = "/apps".toList then
      ["tool.exe".toList, "suite".toList, "notes.txt".toList]
    else if p = "/apps/suite".toList then ["run.exe".toList]
    else []
  stat := fun p =>
    if p = "/r/a.txt".toList then some ⟨false, true, 3, 0⟩
    else if p = "/apps/tool.exe".toList then some ⟨false, true, 5, 0⟩
    else if p = "/apps/suite".toList then some ⟨true, false, 0, 0⟩
    else if p = "/apps/notes.txt".toList then some ⟨false, true, 2, 0⟩
    else none
  staticExcluded := fun _ => false
  appDirs := ["/apps".toList]

/-- Example limits (the values a slow single-core probe would give). -/
def exLimits : AnalysisLimits := ⟨8, 50, 100, 5368709120, 50000, 20000, 1⟩

/-! # Theorems -/

/-! ## Chunking and batching lemmas -/

theorem chunkListAux_flatten (n : Nat) (hn : n ≠ 0) :
    ∀ (fuel : Nat) (l : List α), l.length ≤ fuel →
      (chunkListAux n fuel l).flatten = l := by
  intro fuel
  induction fuel with
  | zero =>
    intro l hl
    cases l with
    | nil => rfl
    | cons x xs => simp at hl
  | succ k ih =>
    intro l hl
    cases l with
    | nil => rfl
    | cons x xs =>
      simp only [chunkListAux, List.flatten_cons]
      have hlen : ((x :: xs).drop n).length ≤ k := by
        simp only [List.length_cons] at hl
        simp only [List.length_drop, List.length_cons]
        omega
      rw [ih _ hlen]
      exact List.take_append_drop _ _

/-- Flattening the chunks gives back the original list. -/
theorem chunkList_flatten (n : Nat) (hn : n ≠ 0) (l : List α) :
    (chunkList n l).flatten = l := by
  unfold chunkList
  rw [if_neg hn]
  exact chunkListAux_flatten n hn l.length l le_rfl

theorem chunkListAux_mem (n : Nat) :
    ∀ (fuel : Nat) (l c : List α), c ∈ chunkListAux n fuel l →
      ∀ x ∈ c, x ∈ l := by
  intro fuel
  induction fuel with
  | zero =>
    intro l c hc
    simp [chunkListAux] at hc
  | succ k ih =>
    intro l c hc x hx
    cases l with
    | nil => simp [chunkListAux] at hc
    | cons y ys =>
      simp only [chunkListAux, List.mem_cons] at hc
      rcases hc with rfl | hc
      · exact List.mem_of_mem_take hx
      · exact List.mem_of_mem_drop (ih _ c hc x hx)

/-- Every element of a chunk is an element of the original list. -/
theorem chunkList_mem (n : Nat) (l : List α) (c : List α)
    (hc : c ∈ chunkList n l) (x : α) (hx : x ∈ c) : x ∈ l := by
  unfold chunkList at hc
  split at hc
  · simp at hc
  · exact chunkListAux_mem n l.length l c hc x hx

theorem settleFilter_append (proc : α → Except ε (Option ρ)) (l₁ l₂ : List α) :
    settleFilter proc (l₁ ++ l₂) =
      settleFilter proc l₁ ++ settleFilter proc l₂ := by
  simp [settleFilter]

theorem chunkListAux_map_flatten (f : List α → List β)
    (hnil : f [] = []) (happ : ∀ a b, f (a ++ b) = f a ++ f b)
    (n : Nat) (hn : n ≠ 0) :
    ∀ (fuel : Nat) (l : List α), l.length ≤ fuel →
      ((chunkListAux n fuel l).map f).flatten = f l := by
  intro fuel
  induction fuel with
  | zero =>
    intro l hl
    cases l with
    | nil => simp [chunkListAux, hnil]
    | cons x xs => simp at hl
  | succ k ih =>
    intro l hl
    cases l with
    | nil => simp [chunkListAux, hnil]
    | cons x xs =>
      simp only [chunkListAux, List.map_cons, List.flatten_cons]
      have hlen : ((x :: xs).drop n).length ≤ k := by
        simp only [List.length_cons] at hl
        simp only [List.length_drop, List.length_cons]
        omega
      rw [ih _ hlen]
      rw [← happ, List.take_append_drop]

/-- Mapping a homomorphic list function over the chunks and flattening
recovers the function's value on the whole list. -/
theorem chunkList_map_flatten (f : List α → List β)
    (hnil : f [] = []) (happ : ∀ a b, f (a ++ b) = f a ++ f b)
    (n : Nat) (hn : n ≠ 0) (l : List α) :
    ((chunkList n l).map f).flatten = f l := by
  unfold chunkList
  rw [if_neg hn]
  exact chunkListAux_map_flatten f hnil happ n hn l.length l le_rfl

/-- With a positive batch size and concurrency level (both guaranteed by
the limits calculator) `processBatch` is exactly the input-order
restriction to fulfilled truthy results, on both concurrency paths. -/
theorem processBatch_eq_settleFilter (items : List α)
    (proc : α → Except ε (Option ρ)) (limits : AnalysisLimits)
    (hbs : limits.batchSize ≠ 0) (hcl : limits.concurrencyLevel ≠ 0) :
    processBatch items proc limits = settleFilter proc items := by
  unfold processBatch
  have hone : ∀ l : List α,
      ((chunkList limits.batchSize l).map (settleFilter proc)).flatten =
        settleFilter proc l :=
    chunkList_map_flatten (settleFilter proc) rfl (settleFilter_append proc)
      limits.batchSize hbs
  split
  · exact hone items
  · rw [chunkList_map_flatten (fun g => (g.map (settleFilter proc)).flatten)
      (by simp) (by simp) limits.concurrencyLevel hcl
      (chunkList limits.batchSize items)]
    exact hone items

/-- Whatever the limits (even degenerate ones), every result of
`processBatch` comes from some input entry that fulfilled truthy. -/
theorem processBatch_mem (items : List α) (proc : α → Except ε (Option ρ))
    (limits : AnalysisLimits) (r : ρ)
    (hr : r ∈ processBatch items proc limits) :
    ∃ t ∈ items, proc t = .ok (some r) := by
  have hsf : ∀ (l : List α), r ∈ settleFilter proc l →
      ∃ t ∈ l, proc t = .ok (some r) := by
    intro l hl
    rcases List.mem_filterMap.mp hl with ⟨t, ht, hpt⟩
    refine ⟨t, ht, ?_⟩
    match h : proc t with
    | .ok (some v) =>
      rw [h] at hpt
      simp only [Option.some.injEq] at hpt
      rw [hpt]
    | .ok none => rw [h] at hpt; simp at hpt
    | .error e => rw [h] at hpt; simp at hpt
  unfold processBatch at hr
  split at hr
  · rcases List.mem_flatten.mp hr with ⟨part, hpart, hrp⟩
    rcases List.mem_map.mp hpart with ⟨batch, hbatch, rfl⟩
    rcases hsf batch hrp with ⟨t, ht, hpt⟩
    exact ⟨t, chunkList_mem _ _ _ hbatch t ht, hpt⟩
  · rcases List.mem_flatten.mp hr with ⟨grp, hgrp, hrg⟩
    rcases List.mem_map.mp hgrp with ⟨g, hg, rfl⟩
    rcases List.mem_flatten.mp hrg with ⟨part, hpart, hrp⟩
    rcases List.mem_map.mp hpart with ⟨batch, hbatch, rfl⟩
    rcases hsf batch hrp with ⟨t, ht, hpt⟩
    have hbm : batch ∈ chunkList limits.batchSize items :=
      chunkList_mem _ _ _ hg batch hbatch
    exact ⟨t, chunkList_mem _ _ _ hbm t ht, hpt⟩

/-! ## Claim C10 — uninitialized module-level exclusion API -/

/-- C10: if `initializeExclusionManager` has never been called, the
module-level API degrades silently: any sequence of
`addDirectoryExclusion` / `removeDirectoryExclusion` calls leaves the
module state unassigned (no exclusion state behind),
`getExcludedDirectories()` returns `[]`, and `isPathExcluded(p)` is
`false` for every path. -/
theorem claim_C10_uninitialized_module_api_degrades
    (ops : List ModuleOp) (p : Str) :
    applyModuleOps none ops = none ∧
    getExcludedDirectories (applyModuleOps none ops) = [] ∧
    isPathExcluded (applyModuleOps none ops) p = false := by
  have hnone : applyModuleOps none ops = none := by
    induction ops with
    | nil => rfl
    | cons op rest ih =>
      cases op <;> simpa [applyModuleOps, applyModuleOp,
        addDirectoryExclusion, removeDirectoryExclusion] using ih
  exact ⟨hnone, by rw [hnone]; rfl, by rw [hnone]; rfl⟩

/-! ## Claim C1 — performCompleteAnalysis never rejects once initialized -/

/-- C1: with the orchestrator initialized, `performCompleteAnalysis`
settles fulfilled for every combination of phase outcomes; each
rejected phase contributes `[]` and each fulfilled phase its value
unchanged. -/
theorem claim_C1_completeAnalysis_settles_fulfilled
    (st : OrchestratorState) (hinit : st.isInitialized = true)
    (hlim : st.analysisLimits ≠ none)
    (filesResult appsResult configurationsResult :
      Except String (List FileItem)) :
    performCompleteAnalysis st filesResult appsResult configurationsResult =
      .ok ({ st with progressUpdateCounter := 0, fileCounter := 0 },
        { files := match filesResult with | .ok v => v | .error _ => []
          apps := match appsResult with | .ok v => v | .error _ => []
          configurations :=
            match configurationsResult with | .ok v => v | .error _ => [] }) := by
  unfold performCompleteAnalysis
  rw [if_neg]
  push_neg
  exact ⟨by simp [hinit], hlim⟩

/-- Witness for C1 at a concrete initialized state with the files phase
fulfilled and the other two rejected. -/
theorem claim_C1_witness :
    (initOrchestrator ⟨none, false, 3, 4, none⟩ ⟨16, 8, 8, .fast⟩).isInitialized
        = true ∧
    performCompleteAnalysis
        (initOrchestrator ⟨none, false, 3, 4, none⟩ ⟨16, 8, 8, .fast⟩)
        (.ok [FileItem.file "a".toList "a".toList "/a".toList 1 none 0 []])
        (.error "apps failed") (.error "configs failed") =
      .ok ({ initOrchestrator ⟨none, false, 3, 4, none⟩ ⟨16, 8, 8, .fast⟩ with
              progressUpdateCounter := 0, fileCounter := 0 },
           { files := [FileItem.file "a".toList "a".toList "/a".toList 1 none 0 []]
             apps := []
             configurations := [] }) :=
  ⟨rfl,
    claim_C1_completeAnalysis_settles_fulfilled _ rfl (by simp [initOrchestrator])
      _ _ _⟩

/-! ## Claim C3 — initialize() when already Ready -/

/-- C3 as stated is false: `initialize()` early-returns when the
orchestrator is already initialized.  Concretely, a Ready state with a
stale `maxDepth = 7` limit and a nonzero progress counter is returned
unchanged by `initialize`; in particular the limits are not recomputed
from the fresh probe (recomputation always yields `maxDepth = 8`) and
the counters are not reset. -/
theorem claim_C3_counterexample :
    initOrchestrator
        ⟨some ⟨7, 50, 100, 5368709120, 50000, 20000, 1⟩, true, 7, 5,
          some emptyExclusionManager⟩ ⟨16, 8, 8, .fast⟩ =
      ⟨some ⟨7, 50, 100, 5368709120, 50000, 20000, 1⟩, true, 7, 5,
        some emptyExclusionManager⟩ ∧
    (⟨some ⟨7, 50, 100, 5368709120, 50000, 20000, 1⟩, true, 7, 5,
        some emptyExclusionManager⟩ : OrchestratorState).progressUpdateCounter
      ≠ 0 ∧
    (⟨some ⟨7, 50, 100, 5368709120, 50000, 20000, 1⟩, true, 7, 5,
        some emptyExclusionManager⟩ : OrchestratorState).analysisLimits
      ≠ some (calculateOptimalLimits ⟨16, 8, 8, .fast⟩) := by
  refine ⟨rfl, by simp, fun h => ?_⟩
  have h7 : (7 : Nat) =
      (calculateOptimalLimits ⟨16, 8, 8, .fast⟩).maxDepth := by
    have := congrArg (fun o => (o.getD ⟨0,0,0,0,0,0,0⟩).maxDepth) h
    simpa using this
  simp [calculateOptimalLimits] at h7

/-- C3 amended: `initialize()` recomputes the limits from the fresh
probe and resets the progress and file-id counters (and installs a
fresh exclusion manager) only when the orchestrator is not yet
initialized; a call made when already initialized returns immediately
and changes nothing. -/
theorem claim_C3_amended_init_behavior
    (st : OrchestratorState) (specs : DeviceSpecs) :
    (st.isInitialized = false →
      initOrchestrator st specs =
        { analysisLimits := some (calculateOptimalLimits specs)
          isInitialized := true
          progressUpdateCounter := 0
          fileCounter := 0
          exclusionState := some emptyExclusionManager }) ∧
    (st.isInitialized = true → initOrchestrator st specs = st) := by
  constructor
  · intro h
    simp [initOrchestrator, h]
  · intro h
    simp [initOrchestrator, h]

/-- Witness for the amended C3: a fresh state is initialized, and the
stale Ready state from the counterexample is returned unchanged. -/
theorem claim_C3_amended_witness :
    initOrchestrator ⟨none, false, 3, 4, none⟩ ⟨16, 8, 8, .fast⟩ =
      { analysisLimits := some (calculateOptimalLimits ⟨16, 8, 8, .fast⟩)
        isInitialized := true
        progressUpdateCounter := 0
        fileCounter := 0
        exclusionState := some emptyExclusionManager } ∧
    initOrchestrator ⟨some ⟨7, 50, 100, 5368709120, 50000, 20000, 1⟩, true, 7,
        5, some emptyExclusionManager⟩ ⟨16, 8, 8, .fast⟩ =
      ⟨some ⟨7, 50, 100, 5368709120, 50000, 20000, 1⟩, true, 7, 5,
        some emptyExclusionManager⟩ :=
  ⟨(claim_C3_amended_init_behavior ⟨none, false, 3, 4, none⟩
      ⟨16, 8, 8, .fast⟩).1 rfl,
    (claim_C3_amended_init_behavior _ ⟨16, 8, 8, .fast⟩).2 rfl⟩

/-! ## Claim C7 — the limits formula -/

/-- C7: `calculateOptimalLimits` is a pure function of `DeviceSpecs`
(equal specs give identical limits), computing the claimed
performance score and the claimed derived limits:
`batchSize = clamp(floor(200*score), 50, 1000)`,
`progressUpdateInterval = max(25, floor(100/score))`,
`warningDirectorySize = max(50000, floor(100000*score))`,
`slowDirectoryThreshold = max(20000, floor(50000*score))`,
`maxDepth = 8` and `largeSizeThreshold = 5 GiB`. -/
theorem claim_C7_limits_formula (s : DeviceSpecs) :
    (∀ s₂ : DeviceSpecs, s = s₂ →
      calculateOptimalLimits s = calculateOptimalLimits s₂) ∧
    performanceScore s =
      min ((s.cpuCores : ℚ) / 4) 3 * min (s.availableMemoryGB / 4) 2 *
        (match s.diskSpeedTier with
         | .fast => (2 : ℚ)
         | .medium => 3 / 2
         | .slow => 1) ∧
    calculateOptimalLimits s =
      { maxDepth := 8
        batchSize := (clampInt ⌊200 * performanceScore s⌋ 50 1000).toNat
        progressUpdateInterval :=
          (max 25 ⌊(100 : ℚ) / performanceScore s⌋).toNat
        largeSizeThreshold := 5 * 1024 ^ 3
        warningDirectorySize :=
          (max 50000 ⌊100000 * performanceScore s⌋).toNat
        slowDirectoryThreshold :=
          (max 20000 ⌊50000 * performanceScore s⌋).toNat
        concurrencyLevel := (calculateOptimalConcurrency s).toNat } := by
  refine ⟨fun s₂ h => by rw [h], ?_, ?_⟩
  · unfold performanceScore diskMultiplier
    cases s.diskSpeedTier <;> rfl
  · simp only [calculateOptimalLimits, clampInt, AnalysisLimits.mk.injEq]
    refine ⟨trivial, ?_, trivial, by norm_num, trivial, trivial, trivial⟩
    rw [max_comm]

/-- Witness for C7: the purity conjunct discharged at a concrete spec. -/
theorem claim_C7_witness :
    calculateOptimalLimits ⟨16, 8, 8, .fast⟩ =
      calculateOptimalLimits ⟨16, 8, 8, .fast⟩ :=
  (claim_C7_limits_formula ⟨16, 8, 8, .fast⟩).1 ⟨16, 8, 8, .fast⟩ rfl

/-! ## Claim C6 — circuit breaker transitions -/

/-- C6: with `failureThreshold = 5`, (1) five consecutive failed
executions from a fresh breaker leave it `OPEN`; (2) any call while
`OPEN` within `resetTimeout` of the last failure returns the
breaker-open error with the state untouched and without depending on
the wrapped operation; (3) the first call after `resetTimeout` elapses
dispatches the operation (`HALF_OPEN` probe), and its success returns
the breaker to `CLOSED` with the failure counter reset to `0`. -/
theorem claim_C6_circuit_breaker (rt mp : Int) :
    (∀ (t₁ t₂ t₃ t₄ t₅ : Int) (e₁ e₂ e₃ e₄ e₅ : String),
      (cbRunFailures ⟨5, rt, mp⟩ initialCircuitBreaker
        [(t₁, e₁), (t₂, e₂), (t₃, e₃), (t₄, e₄), (t₅, e₅)]).state =
        .opened) ∧
    (∀ (cb : CircuitBreakerState) (now : Int) (op : Except String Unit),
      cb.state = .opened → now - cb.lastFailureTime ≤ rt →
      cbExecute ⟨5, rt, mp⟩ cb now op = (cb, .breakerOpen)) ∧
    (∀ (cb : CircuitBreakerState) (now : Int) (r : Unit),
      cb.state = .opened → rt < now - cb.lastFailureTime →
      cbExecute ⟨5, rt, mp⟩ cb now (Except.ok r : Except String Unit) =
        ({ cb with
            state := CircuitState.closed
            failures := 0
            successes := cb.successes + 1 }, .success r)) := by
  refine ⟨?_, ?_, ?_⟩
  · intro t₁ t₂ t₃ t₄ t₅ e₁ e₂ e₃ e₄ e₅
    rfl
  · intro cb now op hst ht
    simp only [cbExecute, hst, if_true, reduceIte]
    rw [if_neg (by omega)]
  · intro cb now r hst ht
    simp only [cbExecute, hst, if_true, reduceIte]
    rw [if_pos (by omega)]
    simp [cbOnSuccess]

/-- Witness for C6 at `resetTimeout = 30000`: five failures open the
breaker; a call 100 ms after the last failure fails fast with the state
untouched; a call 39900 ms after the last failure succeeds and closes
the breaker with zeroed failures. -/
theorem claim_C6_witness :
    (cbRunFailures ⟨5, 30000, 60000⟩ initialCircuitBreaker
      [(1, "e"), (2, "e"), (3, "e"), (4, "e"), (5, "e")]).state = .opened ∧
    cbExecute ⟨5, 30000, 60000⟩ ⟨.opened, 5, 100, 0⟩ 200
        (Except.error "x" : Except String Unit) =
      (⟨.opened, 5, 100, 0⟩, .breakerOpen) ∧
    cbExecute ⟨5, 30000, 60000⟩ ⟨.opened, 5, 100, 0⟩ 40000
        (Except.ok () : Except String Unit) =
      (⟨.closed, 0, 100, 1⟩, .success ()) :=
  ⟨(claim_C6_circuit_breaker 30000 60000).1 1 2 3 4 5 "e" "e" "e" "e" "e",
    (claim_C6_circuit_breaker 30000 60000).2.1 ⟨.opened, 5, 100, 0⟩ 200
      (Except.error "x") rfl (by decide),
    (claim_C6_circuit_breaker 30000 60000).2.2 ⟨.opened, 5, 100, 0⟩ 40000
      () rfl (by decide)⟩

/-! ## Claim C5 — exclusion membership and ancestor closure -/

/-- Lowercasing preserves the prefix relation (`toLowerCase` maps the
characters pointwise). -/
theorem toLower_isPrefixOf (a p : Str) (h : List.isPrefixOf a p = true) :
    List.isPrefixOf (toLowerStr a) (toLowerStr p) = true := by
  exact List.isPrefixOf_iff_prefix.mpr
    (List.IsPrefix.map _ (List.isPrefixOf_iff_prefix.mp h))

/-- An entry added by `addExclusion` is stored (lowercased). -/
theorem mem_addExclusion_self (m : ExclusionManager) (p : Str) :
    toLowerStr p ∈ (addExclusion m p).excludedPaths := by
  unfold addExclusion
  split
  · assumption
  · exact List.mem_append_right _ (List.mem_singleton.mpr rfl)

/-- A stored entry survives any operation sequence containing no
`remove` of its lowercased path. -/
theorem mem_applyExclOps_of_not_removed (m : ExclusionManager)
    (ops : List ExclOp) (e : Str) (he : e ∈ m.excludedPaths)
    (hrem : ∀ q, ExclOp.remove q ∈ ops → toLowerStr q ≠ e) :
    e ∈ (applyExclOps m ops).excludedPaths := by
  induction ops generalizing m with
  | nil => exact he
  | cons op rest ih =>
    have hstep : applyExclOps m (op :: rest) =
        applyExclOps (applyExclOp m op) rest := rfl
    rw [hstep]
    refine ih _ ?_ fun q hq => hrem q (List.mem_cons_of_mem _ hq)
    cases op with
    | add p =>
      show e ∈ (addExclusion m p).excludedPaths
      unfold addExclusion
      split
      · exact he
      · exact List.mem_append_left _ he
    | remove p =>
      show e ∈ (removeExclusion m p).excludedPaths
      unfold removeExclusion
      refine List.mem_filter.mpr ⟨he, ?_⟩
      have : toLowerStr p ≠ e := hrem p (List.mem_cons_self _ _)
      simp [this.symm]

/-- C5: `isExcluded(p)` holds exactly when some currently stored
(lowercased) entry `e` satisfies the bidirectional prefix test against
`lowercase(p)`; consequently, after any operation sequence in which an
ancestor `a` of `p` was added and not subsequently removed,
`isExcluded(p)` is `true`. -/
theorem claim_C5_exclusion_semantics :
    (∀ (m : ExclusionManager) (p : Str),
      isExcluded m p = true ↔
        ∃ e ∈ m.excludedPaths,
          jsStartsWith (toLowerStr p) e = true ∨
            jsStartsWith e (toLowerStr p) = true) ∧
    (∀ (ops₁ ops₂ : List ExclOp) (a p : Str),
      List.isPrefixOf a p = true →
      (∀ q, ExclOp.remove q ∈ ops₂ → toLowerStr q ≠ toLowerStr a) →
      isExcluded
        (applyExclOps emptyExclusionManager (ops₁ ++ ExclOp.add a :: ops₂))
        p = true) := by
  have hchar : ∀ (m : ExclusionManager) (p : Str),
      isExcluded m p = true ↔
        ∃ e ∈ m.excludedPaths,
          jsStartsWith (toLowerStr p) e = true ∨
            jsStartsWith e (toLowerStr p) = true := by
    intro m p
    unfold isExcluded
    rw [List.any_eq_true]
    simp only [Bool.or_eq_true]
  refine ⟨hchar, fun ops₁ ops₂ a p hanc hrem => ?_⟩
  have hsplit :
      applyExclOps emptyExclusionManager (ops₁ ++ ExclOp.add a :: ops₂) =
        applyExclOps
          (addExclusion (applyExclOps emptyExclusionManager ops₁) a) ops₂ := by
    unfold applyExclOps
    rw [List.foldl_append]
    rfl
  rw [hsplit]
  refine (hchar _ p).mpr ⟨toLowerStr a, ?_, Or.inl ?_⟩
  · exact mem_applyExclOps_of_not_removed _ ops₂ (toLowerStr a)
      (mem_addExclusion_self _ a) hrem
  · exact toLower_isPrefixOf a p hanc

/-- Witness for C5: add `/c`, add `/A`, remove `/c`; the descendant
`/a/b` of the surviving (case-normalized) ancestor `/A` is excluded. -/
theorem claim_C5_witness :
    List.isPrefixOf "/A".toList "/A/b".toList = true ∧
    isExcluded
      (applyExclOps emptyExclusionManager
        [ExclOp.add "/c".toList, ExclOp.add "/A".toList,
          ExclOp.remove "/c".toList])
      "/A/b".toList = true :=
  ⟨by decide,
    claim_C5_exclusion_semantics.2 [ExclOp.add "/c".toList]
      [ExclOp.remove "/c".toList] "/A".toList "/A/b".toList (by decide)
      (by
        intro q hq
        simp only [List.mem_singleton, ExclOp.remove.injEq] at hq
        subst hq
        decide)⟩

/-! ## Directory scanner lemmas -/

/-- One unfolding of `scanDirectory` with the local bindings reduced
and the entry closure named. -/
theorem scanDirectory_eq (fs : FS) (excl : ExclusionModuleState)
    (dirPath : Str) (limits : AnalysisLimits) (parentId : Option Str)
    (depth : Nat) :
    scanDirectory fs excl dirPath limits parentId depth =
      if limits.maxDepth < depth ∨ fs.staticExcluded dirPath = true then []
      else if !(fs.accessible dirPath) then []
      else if (fs.readdir dirPath).isEmpty then []
      else if isPathExcluded excl dirPath then []
      else
        processBatch (fs.readdir dirPath)
          (scanEntryProc fs excl dirPath limits parentId depth) limits := by
  rw [scanDirectory]
  rfl

/-- A call beyond the depth bound returns `[]` regardless of the
filesystem: the guard fires before any I/O function is consulted. -/
theorem scanDirectory_depth_exceeded (fs : FS) (excl : ExclusionModuleState)
    (dirPath : Str) (limits : AnalysisLimits) (parentId : Option Str)
    (depth : Nat) (h : limits.maxDepth < depth) :
    scanDirectory fs excl dirPath limits parentId depth = [] := by
  rw [scanDirectory_eq, if_pos (Or.inl h)]

/-- The image of a `filterMap` is a sublist of the image of the source
whenever the two projections agree on selected elements: the selection
keeps relative input order. -/
theorem filterMap_map_sublist (l : List α) (g : α → Option ρ) (h : ρ → β)
    (k : α → β) (hcomp : ∀ x r, g x = some r → h r = k x) :
    ((l.filterMap g).map h).Sublist (l.map k) := by
  induction l with
  | nil => simp
  | cons x xs ih =>
    cases hg : g x with
    | none =>
      simp only [List.filterMap_cons, hg, List.map_cons]
      exact List.Sublist.cons _ ih
    | some r =>
      simp only [List.filterMap_cons, hg, List.map_cons, hcomp x r hg]
      exact List.Sublist.cons₂ _ ih

/-- An item produced by the scanner's entry closure carries the joined
path of its entry. -/
theorem scanEntryProc_path (fs : FS) (excl : ExclusionModuleState)
    (dirPath : Str) (limits : AnalysisLimits) (parentId : Option Str)
    (depth : Nat) (entry : Str) (item : FileItem)
    (h : scanEntryProc fs excl dirPath limits parentId depth entry =
      .ok (some item)) :
    itemPath item = joinPath dirPath entry := by
  unfold scanEntryProc at h
  split at h
  · simp at h
  · split at h
    · simp at h
    · split at h
      · simp only [Except.ok.injEq, Option.some.injEq] at h
        rw [← h]
        rfl
      · split at h
        · simp only [Except.ok.injEq, Option.some.injEq] at h
          rw [← h]
          rfl
        · simp at h

/-! ## Claim C9 — processBatch preserves input order -/

/-- C9: for every entry list, processor and limits (positive batch size
and concurrency, as the calculator guarantees, covering both the
`concurrencyLevel == 1` path and the concurrent path), `processBatch`
returns exactly the input-order restriction to entries whose processing
fulfilled with a truthy value; hence a scanned directory's item paths
appear in the same relative order as the directory listing. -/
theorem claim_C9_processBatch_preserves_order :
    (∀ (α ε ρ : Type) (items : List α) (proc : α → Except ε (Option ρ))
        (limits : AnalysisLimits),
      limits.batchSize ≠ 0 → limits.concurrencyLevel ≠ 0 →
      processBatch items proc limits = settleFilter proc items) ∧
    (∀ (fs : FS) (excl : ExclusionModuleState) (dirPath : Str)
        (limits : AnalysisLimits) (parentId : Option Str) (depth : Nat),
      limits.batchSize ≠ 0 → limits.concurrencyLevel ≠ 0 →
      ((scanDirectory fs excl dirPath limits parentId depth).map
        itemPath).Sublist ((fs.readdir dirPath).map (joinPath dirPath))) := by
  refine ⟨fun α ε ρ items proc limits hbs hcl =>
    processBatch_eq_settleFilter items proc limits hbs hcl, ?_⟩
  intro fs excl dirPath limits parentId depth hbs hcl
  rw [scanDirectory_eq]
  split
  · simp
  · split
    · simp
    · split
      · simp
      · split
        · simp
        · rw [processBatch_eq_settleFilter _ _ _ hbs hcl]
          exact filterMap_map_sublist _ _ _ _ fun entry item hsel => by
            revert hsel
            match hp : scanEntryProc fs excl dirPath limits parentId depth
                entry with
            | .ok (some v) =>
              intro hsel
              simp only [Option.some.injEq] at hsel
              rw [← hsel]
              exact scanEntryProc_path fs excl dirPath limits parentId depth
                entry v hp
            | .ok none => intro hsel; simp at hsel
            | .error e => intro hsel; simp at hsel

/-- Witness for C9: a processor over `[1, 2, 3, 4]` that rejects on `2`
and fulfils `null` on `3` yields `[10, 40]` in input order, on the
sequential path. -/
theorem claim_C9_witness :
    (⟨8, 2, 100, 5368709120, 50000, 20000, 1⟩ : AnalysisLimits).batchSize
        ≠ 0 ∧
    processBatch [1, 2, 3, 4]
        (fun n => if n = 2 then (Except.error "boom" : Except String (Option Nat))
          else if n = 3 then .ok none else .ok (some (10 * n)))
        ⟨8, 2, 100, 5368709120, 50000, 20000, 1⟩ =
      settleFilter
        (fun n => if n = 2 then (Except.error "boom" : Except String (Option Nat))
          else if n = 3 then .ok none else .ok (some (10 * n)))
        [1, 2, 3, 4] :=
  ⟨by decide,
    claim_C9_processBatch_preserves_order.1 Nat String Nat [1, 2, 3, 4] _
      ⟨8, 2, 100, 5368709120, 50000, 20000, 1⟩ (by decide) (by decide)⟩

/-! ## Claim C4 — depth bound -/

/-- A fold of `max` over bounded values is bounded. -/
theorem foldr_max_le (l : List β) (g : β → Nat) (M : Nat)
    (h : ∀ b ∈ l, g b ≤ M) :
    l.foldr (fun b acc => max (g b) acc) 0 ≤ M := by
  induction l with
  | nil => simp
  | cons b bs ih =>
    simp only [List.foldr_cons]
    exact max_le (h b (List.mem_cons_self _ _))
      (ih fun c hc => h c (List.mem_cons_of_mem _ hc))

theorem depthBelow_file (i n p : Str) (s : Nat) (par : Option Str) (md : Int)
    (ex : Str) : depthBelow (FileItem.file i n p s par md ex) = 0 := by
  rw [depthBelow]

theorem depthBelow_folder (i n p : Str) (par : Option Str) (md : Int)
    (cs : List FileItem) :
    depthBelow (FileItem.folder i n p par md cs) =
      cs.attach.foldr (fun c acc => max (depthBelow c.1 + 1) acc) 0 := by
  rw [depthBelow]

theorem depthBelow_folder_nil (i n p : Str) (par : Option Str) (md : Int) :
    depthBelow (FileItem.folder i n p par md []) = 0 := by
  rw [depthBelow_folder]
  rfl

/-- A folder whose children all have nesting depth at most `m` has
nesting depth at most `m + 1`. -/
theorem depthBelow_folder_le (i n p : Str) (par : Option Str) (md : Int)
    (cs : List FileItem) (m : Nat) (h : ∀ c ∈ cs, depthBelow c ≤ m) :
    depthBelow (FileItem.folder i n p par md cs) ≤ m + 1 := by
  rw [depthBelow_folder]
  apply foldr_max_le
  intro c _
  have := h c.1 c.2
  omega

/-- Every item the entry closure yields is either a (leaf) file item or
a folder item whose children are exactly the recursive scan of the
entry's path at `depth + 1`. -/
theorem scanEntryProc_shape (fs : FS) (excl : ExclusionModuleState)
    (dirPath : Str) (limits : AnalysisLimits) (parentId : Option Str)
    (depth : Nat) (entry : Str) (item : FileItem)
    (h : scanEntryProc fs excl dirPath limits parentId depth entry =
      .ok (some item)) :
    (∃ i n p s par md ex, item = FileItem.file i n p s par md ex) ∨
    (∃ i n par md,
      item = FileItem.folder i n (joinPath dirPath entry) par md
        (scanDirectory fs excl (joinPath dirPath entry) limits
          (some (generateFileId (joinPath dirPath entry))) (depth + 1))) := by
  unfold scanEntryProc at h
  split at h
  · simp at h
  · split at h
    · simp at h
    · split at h
      · simp only [Except.ok.injEq, Option.some.injEq] at h
        exact Or.inr ⟨_, _, _, _, h.symm⟩
      · split at h
        · simp only [Except.ok.injEq, Option.some.injEq] at h
          exact Or.inl ⟨_, _, _, _, _, _, _, h.symm⟩
        · simp at h

/-- Master depth invariant: an item returned by a scan entered at
`depth` nests at most `maxDepth - depth` further levels. -/
theorem scanDirectory_item_depth (fs : FS) (excl : ExclusionModuleState)
    (limits : AnalysisLimits) :
    ∀ (fuel depth : Nat), limits.maxDepth + 1 - depth ≤ fuel →
    ∀ (dirPath : Str) (parentId : Option Str) (item : FileItem),
      item ∈ scanDirectory fs excl dirPath limits parentId depth →
      depthBelow item ≤ limits.maxDepth - depth := by
  intro fuel
  induction fuel with
  | zero =>
    intro depth hfuel dirPath parentId item hitem
    rw [scanDirectory_depth_exceeded _ _ _ _ _ _ (by omega)] at hitem
    simp at hitem
  | succ k ih =>
    intro depth hfuel dirPath parentId item hitem
    by_cases hgt : limits.maxDepth < depth
    · rw [scanDirectory_depth_exceeded _ _ _ _ _ _ hgt] at hitem
      simp at hitem
    · rw [scanDirectory_eq] at hitem
      split at hitem
      · simp at hitem
      · split at hitem
        · simp at hitem
        · split at hitem
          · simp at hitem
          · split at hitem
            · simp at hitem
            · rcases processBatch_mem _ _ _ _ hitem with ⟨entry, _, hproc⟩
              rcases scanEntryProc_shape _ _ _ _ _ _ _ _ hproc with
                ⟨i, n, p, s, par, md, ex, rfl⟩ | ⟨i, n, par, md, rfl⟩
              · rw [depthBelow_file]
                exact Nat.zero_le _
              · by_cases hlt : depth < limits.maxDepth
                · have hch : ∀ c ∈ scanDirectory fs excl
                      (joinPath dirPath entry) limits
                      (some (generateFileId (joinPath dirPath entry)))
                      (depth + 1),
                      depthBelow c ≤ limits.maxDepth - (depth + 1) :=
                    fun c hc => ih (depth + 1) (by omega) _ _ c hc
                  have hle := depthBelow_folder_le i n
                    (joinPath dirPath entry) par md _
                    (limits.maxDepth - (depth + 1)) hch
                  omega
                · rw [scanDirectory_depth_exceeded _ _ _ _ _ _ (by omega)]
                  rw [depthBelow_folder_nil]
                  exact Nat.zero_le _

/-- C4: a scan started at depth 0 yields no item nesting below
`maxDepth` (on any directory tree, in particular one of depth
`maxDepth + 5`), and a recursive call entered with `depth > maxDepth`
returns `[]` for every filesystem — the guard fires before any I/O. -/
theorem claim_C4_depth_bound :
    (∀ (fs : FS) (excl : ExclusionModuleState) (limits : AnalysisLimits)
        (dirPath : Str),
      ∀ item ∈ scanDirectory fs excl dirPath limits none 0,
        depthBelow item ≤ limits.maxDepth) ∧
    (∀ (fs : FS) (excl : ExclusionModuleState) (limits : AnalysisLimits)
        (dirPath : Str) (parentId : Option Str) (depth : Nat),
      limits.maxDepth < depth →
      scanDirectory fs excl dirPath limits parentId depth = []) := by
  constructor
  · intro fs excl limits dirPath item hitem
    have h := scanDirectory_item_depth fs excl limits (limits.maxDepth + 1) 0
      (by omega) dirPath none item hitem
    omega
  · intro fs excl limits dirPath parentId depth h
    exact scanDirectory_depth_exceeded fs excl dirPath limits parentId depth h

/-- Witness for C4: on the example filesystem the depth-0 scan yields
the single text file (nesting depth 0 ≤ 8), and a call at depth 9 > 8
returns `[]`. -/
theorem claim_C4_witness :
    depthBelow (FileItem.file "/r/a.txt".toList "a.txt".toList
        "/r/a.txt".toList 3 none 0 "txt".toList) ≤ exLimits.maxDepth ∧
    exLimits.maxDepth < 9 ∧
    scanDirectory exFS none "/r".toList exLimits none 9 = [] := by
  have hscan : scanDirectory exFS none "/r".toList exLimits none 0 =
      [FileItem.file "/r/a.txt".toList "a.txt".toList "/r/a.txt".toList 3
        none 0 "txt".toList] := by
    rw [scanDirectory_eq]
    rfl
  exact ⟨claim_C4_depth_bound.1 exFS none exLimits "/r".toList _
      (by rw [hscan]; exact List.mem_singleton.mpr rfl),
    by decide,
    claim_C4_depth_bound.2 exFS none exLimits "/r".toList none 9 (by decide)⟩

/-! ## Claim C2 — application classification completeness -/

/-- Folding the push-if-fulfilled aggregation over a list of fulfilled
array results concatenates them in order. -/
theorem foldl_ok_append (g : α → List β) (ds : List α) (init : List β) :
    (ds.map fun d => (Except.ok (g d) : Except String (List β))).foldl
      pushFulfilled init =
      init ++ (ds.map g).flatten := by
  induction ds generalizing init with
  | nil => simp
  | cons d rest ih =>
    simp only [List.map_cons, List.foldl_cons, pushFulfilled, ih,
      List.flatten_cons]
    rw [List.append_assoc]

/-- C2: for every accessible application directory, each of the first
100 listed entries that is an executable file, or a folder with at
least one immediate executable child, yields a `FileItem` with the
entry's joined path in the result of `analyzeApplications`. -/
theorem claim_C2_applications_complete (fs : FS) (limits : AnalysisLimits)
    (hbs : limits.batchSize ≠ 0) (hcl : limits.concurrencyLevel ≠ 0)
    (appDir : Str) (hdir : appDir ∈ fs.appDirs)
    (hacc : fs.accessible appDir = true)
    (entry : Str) (hentry : entry ∈ (fs.readdir appDir).take 100)
    (stats : Stats) (hstat : fs.stat (joinPath appDir entry) = some stats)
    (hclass :
      (stats.isDirectory = true ∧
        (fs.readdir (joinPath appDir entry)).any isExecutableFile = true) ∨
      (stats.isFile = true ∧ stats.isDirectory = false ∧
        isExecutableFile entry = true)) :
    ∃ items, analyzeApplications fs limits = .ok items ∧
      ∃ item ∈ items, itemPath item = joinPath appDir entry := by
  obtain ⟨it, hpe, hpath⟩ : ∃ it, processAppEntry fs entry appDir = some it ∧
      itemPath it = joinPath appDir entry := by
    unfold processAppEntry
    simp only [hstat]
    rcases hclass with ⟨hisdir, hexec⟩ | ⟨_, hndir, hexec⟩
    · simp only [hisdir, hexec, if_true]
      exact ⟨_, rfl, rfl⟩
    · simp only [hndir, hexec, if_true, Bool.false_eq_true, if_false]
      exact ⟨_, rfl, rfl⟩
  have hmemdir : it ∈ processAppDir fs appDir limits := by
    unfold processAppDir
    simp only [hacc, Bool.not_true, Bool.false_eq_true, if_false]
    have hmem0 : entry ∈ fs.readdir appDir := List.mem_of_mem_take hentry
    have hne : (fs.readdir appDir).isEmpty = false := by
      cases h : fs.readdir appDir with
      | nil => rw [h] at hmem0; simp at hmem0
      | cons a as => rfl
    simp only [hne, Bool.false_eq_true, if_false]
    rw [processBatch_eq_settleFilter _ _ _ hbs hcl]
    refine List.mem_filterMap.mpr ⟨entry, hentry, ?_⟩
    simp only [hpe]
  have hconc : processConcurrentOperations fs.appDirs
      (fun d => (Except.ok (processAppDir fs d limits) : Except String _))
      limits.concurrencyLevel =
      .ok (fs.appDirs.map fun d =>
        (Except.ok (processAppDir fs d limits) : Except String _)) := by
    unfold processConcurrentOperations
    rw [if_neg (by omega)]
  refine ⟨(fs.appDirs.map fun d => processAppDir fs d limits).flatten, ?_, ?_⟩
  · unfold analyzeApplications
    rw [hconc]
    exact congrArg Except.ok
      ((foldl_ok_append (fun d => processAppDir fs d limits)
        fs.appDirs []).trans (List.nil_append _))
  · exact ⟨it, List.mem_flatten.mpr
      ⟨_, List.mem_map_of_mem _ hdir, hmemdir⟩, hpath⟩

/-- Witness for C2 on the example filesystem: in `/apps`, the
executable file `tool.exe` yields an item at `/apps/tool.exe`, and the
folder `suite` (whose child `run.exe` is executable) yields an item at
`/apps/suite`. -/
theorem claim_C2_witness :
    (∃ items, analyzeApplications exFS exLimits = .ok items ∧
      ∃ item ∈ items,
        itemPath item = joinPath "/apps".toList "tool.exe".toList) ∧
    (∃ items, analyzeApplications exFS exLimits = .ok items ∧
      ∃ item ∈ items,
        itemPath item = joinPath "/apps".toList "suite".toList) :=
  ⟨claim_C2_applications_complete exFS exLimits (by decide) (by decide)
      "/apps".toList (by decide) (by decide) "tool.exe".toList (by decide)
      ⟨false, true, 5, 0⟩ (by decide)
      (Or.inr ⟨rfl, rfl, by decide⟩),
    claim_C2_applications_complete exFS exLimits (by decide) (by decide)
      "/apps".toList (by decide) (by decide) "suite".toList (by decide)
      ⟨true, false, 0, 0⟩ (by decide)
      (Or.inl ⟨rfl, by decide⟩)⟩

/-! ## Claim C8 — monotonicity of concurrency and batch size -/

theorem one_le_cpuConcurrency (s : DeviceSpecs) : 1 ≤ cpuConcurrency s :=
  le_max_left _ _

theorem one_le_memoryConcurrency (s : DeviceSpecs) :
    1 ≤ memoryConcurrency s :=
  le_max_left _ _

theorem one_le_diskConcurrency (s : DeviceSpecs) : 1 ≤ diskConcurrency s := by
  unfold diskConcurrency
  rcases s with ⟨tm, am, cc, dt⟩
  cases dt <;> norm_num

theorem one_le_baseConcurrency (s : DeviceSpecs) : 1 ≤ baseConcurrency s :=
  le_min (one_le_cpuConcurrency s)
    (le_min (one_le_memoryConcurrency s) (one_le_diskConcurrency s))

theorem cpuConcurrency_mono (s s' : DeviceSpecs)
    (h : s.cpuCores ≤ s'.cpuCores) : cpuConcurrency s ≤ cpuConcurrency s' := by
  unfold cpuConcurrency
  exact max_le_max le_rfl (Int.ediv_le_ediv (by norm_num) (by exact_mod_cast h))

theorem memoryConcurrency_mono (s s' : DeviceSpecs)
    (h : s.availableMemoryGB ≤ s'.availableMemoryGB) :
    memoryConcurrency s ≤ memoryConcurrency s' := by
  unfold memoryConcurrency
  refine max_le_max le_rfl (Int.floor_mono ?_)
  linarith

theorem diskConcurrency_mono (s s' : DeviceSpecs)
    (h : tierRank s.diskSpeedTier ≤ tierRank s'.diskSpeedTier) :
    diskConcurrency s ≤ diskConcurrency s' := by
  unfold diskConcurrency
  rcases s with ⟨tm, am, cc, dt⟩
  rcases s' with ⟨tm', am', cc', dt'⟩
  cases dt <;> cases dt' <;> simp_all [tierRank]

theorem baseConcurrency_mono (s s' : DeviceSpecs)
    (hc : s.cpuCores ≤ s'.cpuCores)
    (hm : s.availableMemoryGB ≤ s'.availableMemoryGB)
    (ht : tierRank s.diskSpeedTier ≤ tierRank s'.diskSpeedTier) :
    baseConcurrency s ≤ baseConcurrency s' :=
  min_le_min (cpuConcurrency_mono s s' hc)
    (min_le_min (memoryConcurrency_mono s s' hm)
      (diskConcurrency_mono s s' ht))

/-- A monotone step cannot leave the `fast` tier. -/
theorem fast_of_rank_le (t t' : DiskSpeedTier) (h : tierRank t ≤ tierRank t')
    (hf : t = .fast) : t' = .fast := by
  subst hf
  cases t' <;> simp_all [tierRank]

/-- The tier cap never decreases along a componentwise increase. -/
theorem tierAdjusted_mono (s s' : DeviceSpecs)
    (hc : s.cpuCores ≤ s'.cpuCores)
    (hm : s.availableMemoryGB ≤ s'.availableMemoryGB)
    (ht : tierRank s.diskSpeedTier ≤ tierRank s'.diskSpeedTier) :
    tierAdjusted s ≤ tierAdjusted s' := by
  have hb := baseConcurrency_mono s s' hc hm ht
  have hb1' := one_le_baseConcurrency s'
  unfold tierAdjusted
  by_cases hHi : 8 ≤ s.cpuCores ∧ (8 : ℚ) ≤ s.availableMemoryGB ∧
      s.diskSpeedTier = .fast
  · have hHi' : 8 ≤ s'.cpuCores ∧ (8 : ℚ) ≤ s'.availableMemoryGB ∧
        s'.diskSpeedTier = .fast :=
      ⟨le_trans hHi.1 hc, le_trans hHi.2.1 hm,
        fast_of_rank_le _ _ ht hHi.2.2⟩
    rw [if_pos hHi, if_pos hHi']
    exact min_le_min hb le_rfl
  · rw [if_neg hHi]
    by_cases hMid : 4 ≤ s.cpuCores ∧ (4 : ℚ) ≤ s.availableMemoryGB
    · have hMid' : 4 ≤ s'.cpuCores ∧ (4 : ℚ) ≤ s'.availableMemoryGB :=
        ⟨le_trans hMid.1 hc, le_trans hMid.2 hm⟩
      rw [if_pos hMid]
      by_cases hHi' : 8 ≤ s'.cpuCores ∧ (8 : ℚ) ≤ s'.availableMemoryGB ∧
          s'.diskSpeedTier = .fast
      · rw [if_pos hHi']
        exact le_min (le_trans (min_le_left _ _) hb)
          (le_trans (min_le_right _ _) (by norm_num))
      · rw [if_neg hHi', if_pos hMid']
        exact min_le_min hb le_rfl
    · rw [if_neg hMid]
      by_cases hHi' : 8 ≤ s'.cpuCores ∧ (8 : ℚ) ≤ s'.availableMemoryGB ∧
          s'.diskSpeedTier = .fast
      · rw [if_pos hHi']
        exact le_min hb1' (by norm_num)
      · rw [if_neg hHi']
        by_cases hMid' : 4 ≤ s'.cpuCores ∧ (4 : ℚ) ≤ s'.availableMemoryGB
        · rw [if_pos hMid']
          exact le_min hb1' (by norm_num)
        · rw [if_neg hMid']

theorem calculateOptimalConcurrency_mono (s s' : DeviceSpecs)
    (hc : s.cpuCores ≤ s'.cpuCores)
    (hm : s.availableMemoryGB ≤ s'.availableMemoryGB)
    (ht : tierRank s.diskSpeedTier ≤ tierRank s'.diskSpeedTier) :
    calculateOptimalConcurrency s ≤ calculateOptimalConcurrency s' :=
  max_le_max le_rfl (tierAdjusted_mono s s' hc hm ht)

theorem diskMultiplier_pos (t : DiskSpeedTier) : 0 < diskMultiplier t := by
  cases t <;> norm_num [diskMultiplier]

theorem diskMultiplier_mono (t t' : DiskSpeedTier)
    (h : tierRank t ≤ tierRank t') : diskMultiplier t ≤ diskMultiplier t' := by
  cases t <;> cases t' <;> simp_all [tierRank] <;> norm_num [diskMultiplier]

theorem coreMult_nonneg (s : DeviceSpecs) :
    0 ≤ min ((s.cpuCores : ℚ) / 4) 3 :=
  le_min (by positivity) (by norm_num)

theorem coreMult_mono (s s' : DeviceSpecs) (h : s.cpuCores ≤ s'.cpuCores) :
    min ((s.cpuCores : ℚ) / 4) 3 ≤ min ((s'.cpuCores : ℚ) / 4) 3 := by
  refine min_le_min ?_ le_rfl
  have : (s.cpuCores : ℚ) ≤ s'.cpuCores := by exact_mod_cast h
  linarith

theorem memMult_mono (s s' : DeviceSpecs)
    (h : s.availableMemoryGB ≤ s'.availableMemoryGB) :
    min (s.availableMemoryGB / 4) 2 ≤ min (s'.availableMemoryGB / 4) 2 := by
  refine min_le_min ?_ le_rfl
  linarith

/-- Componentwise increase raises the performance score, provided the
memory multiplier of the smaller spec is nonnegative. -/
theorem performanceScore_mono (s s' : DeviceSpecs)
    (hc : s.cpuCores ≤ s'.cpuCores)
    (hm : s.availableMemoryGB ≤ s'.availableMemoryGB)
    (ht : tierRank s.diskSpeedTier ≤ tierRank s'.diskSpeedTier)
    (hM0 : 0 ≤ min (s.availableMemoryGB / 4) 2) :
    performanceScore s ≤ performanceScore s' := by
  unfold performanceScore
  have hB := coreMult_mono s s' hc
  have hM := memMult_mono s s' hm
  have hD := diskMultiplier_mono _ _ ht
  have hB0 := coreMult_nonneg s
  have hB0' := coreMult_nonneg s'
  have hM0' : 0 ≤ min (s'.availableMemoryGB / 4) 2 := le_trans hM0 hM
  have hD0 : (0 : ℚ) ≤ diskMultiplier s.diskSpeedTier :=
    (diskMultiplier_pos _).le
  exact mul_le_mul (mul_le_mul hB hM hM0 hB0') hD hD0
    (mul_nonneg hB0' hM0')

/-- With a negative memory multiplier the score is nonpositive. -/
theorem performanceScore_nonpos (s : DeviceSpecs)
    (hM : min (s.availableMemoryGB / 4) 2 < 0) : performanceScore s ≤ 0 := by
  unfold performanceScore
  rw [mul_assoc]
  refine mul_nonpos_of_nonneg_of_nonpos (coreMult_nonneg s) ?_
  exact mul_nonpos_of_nonpos_of_nonneg hM.le (diskMultiplier_pos _).le

/-- The integer batch size before `toNat` is monotone. -/
theorem batchInt_mono (s s' : DeviceSpecs)
    (hc : s.cpuCores ≤ s'.cpuCores)
    (hm : s.availableMemoryGB ≤ s'.availableMemoryGB)
    (ht : tierRank s.diskSpeedTier ≤ tierRank s'.diskSpeedTier) :
    min (max 50 ⌊200 * performanceScore s⌋) 1000 ≤
      min (max 50 ⌊200 * performanceScore s'⌋) 1000 := by
  by_cases hM0 : 0 ≤ min (s.availableMemoryGB / 4) 2
  · have hP := performanceScore_mono s s' hc hm ht hM0
    exact min_le_min (max_le_max le_rfl (Int.floor_mono (by linarith))) le_rfl
  · push_neg at hM0
    have hP := performanceScore_nonpos s hM0
    have hfl : ⌊200 * performanceScore s⌋ ≤ 0 := by
      have h0 : (200 : ℚ) * performanceScore s ≤ 0 := by linarith
      calc ⌊(200 : ℚ) * performanceScore s⌋ ≤ ⌊(0 : ℚ)⌋ := Int.floor_mono h0
        _ = 0 := Int.floor_zero
    have h50 : max (50 : ℤ) ⌊200 * performanceScore s⌋ = 50 :=
      max_eq_left (by omega)
    rw [h50]
    have hmin : min (50 : ℤ) 1000 = 50 := by norm_num
    rw [hmin]
    exact le_min (le_max_left _ _) (by norm_num)

/-- C8: increasing `cpuCores`, `availableMemoryGB`, or the disk tier
(all else equal) never decreases `concurrencyLevel` or `batchSize`. -/
theorem claim_C8_monotonicity :
    (∀ (s : DeviceSpecs) (c' : Nat), s.cpuCores ≤ c' →
      (calculateOptimalLimits s).concurrencyLevel ≤
        (calculateOptimalLimits { s with cpuCores := c' }).concurrencyLevel ∧
      (calculateOptimalLimits s).batchSize ≤
        (calculateOptimalLimits { s with cpuCores := c' }).batchSize) ∧
    (∀ (s : DeviceSpecs) (m' : ℚ), s.availableMemoryGB ≤ m' →
      (calculateOptimalLimits s).concurrencyLevel ≤
        (calculateOptimalLimits
          { s with availableMemoryGB := m' }).concurrencyLevel ∧
      (calculateOptimalLimits s).batchSize ≤
        (calculateOptimalLimits { s with availableMemoryGB := m' }).batchSize) ∧
    (∀ (s : DeviceSpecs) (t' : DiskSpeedTier),
      tierRank s.diskSpeedTier ≤ tierRank t' →
      (calculateOptimalLimits s).concurrencyLevel ≤
        (calculateOptimalLimits { s with diskSpeedTier := t' }).concurrencyLevel ∧
      (calculateOptimalLimits s).batchSize ≤
        (calculateOptimalLimits { s with diskSpeedTier := t' }).batchSize) := by
  have main : ∀ s s' : DeviceSpecs, s.cpuCores ≤ s'.cpuCores →
      s.availableMemoryGB ≤ s'.availableMemoryGB →
      tierRank s.diskSpeedTier ≤ tierRank s'.diskSpeedTier →
      (calculateOptimalLimits s).concurrencyLevel ≤
        (calculateOptimalLimits s').concurrencyLevel ∧
      (calculateOptimalLimits s).batchSize ≤
        (calculateOptimalLimits s').batchSize := by
    intro s s' hc hm ht
    constructor
    · show (calculateOptimalConcurrency s).toNat ≤
        (calculateOptimalConcurrency s').toNat
      exact Int.toNat_le_toNat (calculateOptimalConcurrency_mono s s' hc hm ht)
    · show (min (max 50 ⌊200 * performanceScore s⌋) 1000).toNat ≤
        (min (max 50 ⌊200 * performanceScore s'⌋) 1000).toNat
      exact Int.toNat_le_toNat (batchInt_mono s s' hc hm ht)
  exact ⟨fun s c' h => main s { s with cpuCores := c' } h le_rfl le_rfl,
    fun s m' h => main s { s with availableMemoryGB := m' } le_rfl h le_rfl,
    fun s t' h => main s { s with diskSpeedTier := t' } le_rfl le_rfl h⟩

/-- Witness for C8: growing a 4-core fast machine to 8 cores does not
decrease the computed concurrency level or batch size. -/
theorem claim_C8_witness :
    (⟨16, 8, 4, DiskSpeedTier.fast⟩ : DeviceSpecs).cpuCores ≤ 8 ∧
    ((calculateOptimalLimits ⟨16, 8, 4, DiskSpeedTier.fast⟩).concurrencyLevel ≤
        (calculateOptimalLimits ⟨16, 8, 8, DiskSpeedTier.fast⟩).concurrencyLevel ∧
      (calculateOptimalLimits ⟨16, 8, 4, DiskSpeedTier.fast⟩).batchSize ≤
        (calculateOptimalLimits ⟨16, 8, 8, DiskSpeedTier.fast⟩).batchSize) :=
  ⟨by decide,
    claim_C8_monotonicity.1 ⟨16, 8, 4, DiskSpeedTier.fast⟩ 8 (by decide)⟩
